import Mathlib

/-!  Verification of the json2csv conversion core (src/lib/json2csv.js).

The JavaScript source is shallowly embedded: JavaScript values are the
inductive type `JVal` (with an explicit `undef` constructor, since the
library distinguishes `undefined` from `null` and from a deleted
property), strings are Lean `String`s, and the partial/fallible parts of
the pipeline return `Except String`, carrying the thrown message.
`JSON.stringify`, `lodash.get`, `lodash.set`, `lodash.uniq`,
`lodash.flatten` and the `flat` package are modelled by the functions of
the same purpose below, faithful to their observable behaviour on the
value universe `JVal`.  The platform line ending `os.EOL` is passed in
explicitly as the `osEOL` argument. -/

namespace Json2Csv

/-- JavaScript-like values handled by the library.  `undef` is the
JavaScript `undefined`; an object property may be present with value
`undef` (as `lodash.set(o, p, undefined)` produces), which is different
from the property being absent. -/
inductive JVal where
  | undef : JVal
  | null : JVal
  | bool (b : Bool) : JVal
  | num (n : Int) : JVal
  | str (s : String) : JVal
  | arr (xs : List JVal) : JVal
  | obj (kvs : List (String × JVal)) : JVal

/-- Number of occurrences of a character in a string. -/
def countChar (c : Char) (s : String) : Nat := s.data.count c

/-- `String.prototype.replace` with a global one-character pattern
(the source's `/\"/g`): every occurrence of `a` becomes `repl`. -/
def replace1 (a : Char) (repl : List Char) : List Char → List Char
  | [] => []
  | c :: rest => (if c = a then repl else [c]) ++ replace1 a repl rest

/-- `String.prototype.replace` with a global two-character literal
pattern (the source's `/\\\\/g` and `/\\"/g`): leftmost,
non-overlapping occurrences of `a` followed by `b` become `repl`, the
scan resuming after the match — exactly the regex engine's global
scan. -/
def replace2 (a b : Char) (repl : List Char) : List Char → List Char
  | [] => []
  | [c] => [c]
  | c :: d :: rest =>
    if c = a ∧ d = b then repl ++ replace2 a b repl rest
    else c :: replace2 a b repl (d :: rest)

/-- `String.prototype.split` on the two-character literal separator
`'\\\\'`. -/
def split2 (a b : Char) : List Char → List (List Char)
  | [] => [[]]
  | [c] => [[c]]
  | c :: d :: rest =>
    if c = a ∧ d = b then [] :: split2 a b rest
    else
      match split2 a b (d :: rest) with
      | [] => [[c]]
      | p :: ps => (c :: p) :: ps

/-- Split on a one-character separator (lodash `stringToPath` for the
plain dotted paths this library uses). -/
def split1 (a : Char) : List Char → List (List Char)
  | [] => [[]]
  | c :: rest =>
    if c = a then [] :: split1 a rest
    else
      match split1 a rest with
      | [] => [[c]]
      | p :: ps => (c :: p) :: ps

/-- Decimal digit value (codepoints 48–57 are the decimal digits). -/
def digitVal (c : Char) : Option Nat :=
  let n := c.toNat
  if 48 ≤ n ∧ n ≤ 57 then some (n - 48) else none

def listToNatAux : List Char → Nat → Option Nat
  | [], acc => some acc
  | c :: rest, acc =>
    match digitVal c with
    | some d => listToNatAux rest (acc * 10 + d)
    | none => none

/-- A string read as a (non-negative, decimal) array index, `none`
otherwise. -/
def jsToNat? (s : String) : Option Nat :=
  match s.data with
  | [] => none
  | l => listToNatAux l 0

/-- `Array.prototype.join` on character lists. -/
def joinSep (sep : List Char) : List (List Char) → List Char
  | [] => []
  | [x] => x
  | x :: y :: rest => x ++ sep ++ joinSep sep (y :: rest)

/-- Lower-case hexadecimal digit, for JSON control-character escapes
(codepoint 48 is the zero digit, 87 + 10 the letter a). -/
def hexDigit (n : Nat) : Char :=
  if n < 10 then Char.ofNat (48 + n) else Char.ofNat (87 + n)

/-- The escape sequence `JSON.stringify` emits for one character of a
string. -/
def jsonEscapeChar (c : Char) : List Char :=
  if c = '"' then ['\\', '"']
  else if c = '\\' then ['\\', '\\']
  else if c = '\x08' then ['\\', 'b']
  else if c = '\x09' then ['\\', 't']
  else if c = '\x0a' then ['\\', 'n']
  else if c = '\x0c' then ['\\', 'f']
  else if c = '\x0d' then ['\\', 'r']
  else if c.toNat < 32 then
    ['\\', 'u', '0', '0', hexDigit (c.toNat / 16), hexDigit (c.toNat % 16)]
  else [c]

/-- `JSON.stringify` applied to a JavaScript string: the double-quoted,
escaped string literal. -/
def jsonQuoteString (s : String) : String :=
  String.mk ('"' :: (s.data.foldr (fun c acc => jsonEscapeChar c ++ acc) ['"']))

mutual

/-- `JSON.stringify`.  Returns `none` exactly for `undefined` (the only
value of our universe on which `JSON.stringify` returns `undefined`). -/
def stringify : JVal → Option String
  | JVal.undef => none
  | JVal.null => some "null"
  | JVal.bool b => some (if b then "true" else "false")
  | JVal.num n => some (toString n)
  | JVal.str s => some (jsonQuoteString s)
  | JVal.arr xs => some ("[" ++ String.intercalate "," (stringifyArr xs) ++ "]")
  | JVal.obj kvs => some ("\x7b" ++ String.intercalate "," (stringifyObj kvs) ++ "\x7d")

/-- Elements of an array: `undefined` members print as `null`. -/
def stringifyArr : List JVal → List String
  | [] => []
  | x :: xs =>
    (match stringify x with
     | some s => s
     | none => "null") :: stringifyArr xs

/-- Members of an object: `undefined`-valued properties are skipped. -/
def stringifyObj : List (String × JVal) → List String
  | [] => []
  | kv :: rest =>
    match stringify kv.2 with
    | none => stringifyObj rest
    | some s => (jsonQuoteString kv.1 ++ ":" ++ s) :: stringifyObj rest

end

/-- `typeof v === 'object'`; note `typeof null === 'object'` in
JavaScript. -/
def typeofIsObject : JVal → Bool
  | JVal.null => true
  | JVal.arr _ => true
  | JVal.obj _ => true
  | _ => false

/-- JavaScript truthiness. -/
def truthy : JVal → Bool
  | JVal.undef => false
  | JVal.null => false
  | JVal.bool b => b
  | JVal.num n => n ≠ 0
  | JVal.str s => s ≠ ""
  | JVal.arr _ => true
  | JVal.obj _ => true

/-- `a || b` on strings (empty string is falsy). -/
def jsOrS (a b : String) : String := if a = "" then b else a

/-- lodash `reIsDeepProp` test: a path string counts as deep when it
contains a dot or a bracket. -/
def isDeepProp (p : String) : Bool := p.data.contains '.' || p.data.contains '['

/-- `key in Object(v)` restricted to own keys, as used by lodash
`isKey`. -/
def hasOwn : JVal → String → Bool
  | JVal.obj kvs, k => kvs.any (fun kv => kv.1 == k)
  | JVal.arr xs, k =>
    (match jsToNat? k with
     | some i => decide (i < xs.length) && (toString i == k)
     | none => false) || (k == "length")
  | _, _ => false

/-- lodash `castPath`: a path that is not "deep", or that is itself a
key of the object, is used as a single key; otherwise it is split on
dots. -/
def castPath (p : String) (v : JVal) : List String :=
  if isDeepProp p = false || hasOwn v p then [p]
  else (split1 '.' p.data).map String.mk

/-- One step of lodash path lookup; missing resolves to `undef`. -/
def getSeg (v : JVal) (k : String) : JVal :=
  match v with
  | JVal.obj kvs =>
    match kvs.find? (fun kv => kv.1 == k) with
    | some kv => kv.2
    | none => JVal.undef
  | JVal.arr xs =>
    match jsToNat? k with
    | some i => xs.getD i JVal.undef
    | none => if k == "length" then JVal.num xs.length else JVal.undef
  | _ => JVal.undef

/-- Walk a parsed path. -/
def getPath (v : JVal) : List String → JVal
  | [] => v
  | k :: rest => getPath (getSeg v k) rest

/-- `lodash.get(v, p)` with no default: `undef` when the path misses. -/
def lodashGetRaw (v : JVal) (p : String) : JVal := getPath v (castPath p v)

/-- `lodash.get(v, p, dflt)`: the default replaces an `undefined`
result only. -/
def lodashGet (v : JVal) (p : String) (dflt : JVal) : JVal :=
  match lodashGetRaw v p with
  | JVal.undef => dflt
  | r => r

/-- Set one key of an object or index of an array, lodash-style: an
existing key is updated in place, a new key is appended, an array is
padded with `undefined` holes when assigned past its end. -/
def setAtKey (v : JVal) (k : String) (nv : JVal) : JVal :=
  match v with
  | JVal.obj kvs =>
    if kvs.any (fun kv => kv.1 == k) then
      JVal.obj (kvs.map (fun kv => if kv.1 == k then (kv.1, nv) else kv))
    else JVal.obj (kvs ++ [(k, nv)])
  | JVal.arr xs =>
    match jsToNat? k with
    | some i =>
      if i < xs.length then JVal.arr (xs.set i nv)
      else JVal.arr (xs ++ List.replicate (i - xs.length) JVal.undef ++ [nv])
    | none => JVal.arr xs
  | w => w

/-- Does the next path segment look like an array index (lodash
`isIndex`)?  Decides whether a missing intermediate is created as `[]`
or as an empty object. -/
def nextIsIndex : List String → Bool
  | k :: _ => (jsToNat? k).isSome
  | [] => false

/-- lodash `baseSet` along a parsed path. -/
def setPath (v : JVal) (path : List String) (nv : JVal) : JVal :=
  match path with
  | [] => v
  | [k] => setAtKey v k nv
  | k :: rest =>
    let child := getSeg v k
    let child :=
      match child with
      | JVal.obj kvs => JVal.obj kvs
      | JVal.arr xs => JVal.arr xs
      | _ => if nextIsIndex rest then JVal.arr [] else JVal.obj []
    setAtKey v k (setPath child rest nv)

/-- `lodash.set(v, p, nv)` (on a deep copy: the embedding is pure, so
cloning is the identity). -/
def lodashSet (v : JVal) (p : String) (nv : JVal) : JVal :=
  setPath v (castPath p v) nv

mutual

/-- One `output[newKey] = value` / recursion decision of the `flat`
package's `step`: plain objects and arrays with at least one key are
recursed into, everything else is emitted at the joined key. -/
def stepEntry (k : String) (v : JVal) (prev : String) : List (String × JVal) :=
  let newKey := if prev ≠ "" then prev ++ "." ++ k else k
  match v with
  | JVal.obj (kv :: kvs) => stepObj (kv :: kvs) newKey
  | JVal.arr (x :: xs) => stepArr (x :: xs) 0 newKey
  | w => [(newKey, w)]

/-- `flat`'s `step` over the keys of an object. -/
def stepObj (kvs : List (String × JVal)) (prev : String) : List (String × JVal) :=
  match kvs with
  | [] => []
  | kv :: rest => stepEntry kv.1 kv.2 prev ++ stepObj rest prev

/-- `flat`'s `step` over the (index) keys of an array. -/
def stepArr (xs : List JVal) (i : Nat) (prev : String) : List (String × JVal) :=
  match xs with
  | [] => []
  | x :: rest => stepEntry (toString i) x prev ++ stepArr rest (i + 1) prev

end

/-- Error messages thrown by the pipeline (`new Error(...)` carries the
message; native `TypeError`s are tagged with a `TypeError:` prefix). -/
def msgTypeKind : String := "Data needs to be an object or array"

def msgNoFields : String :=
  "params should include \"fields\" and/or non-empty \"data\" array of objects"

def msgFieldNames : String :=
  "fieldNames and fields should be of the same length, if fieldNames is provided."

def msgObjectConvert : String := "TypeError: Cannot convert undefined or null to object"

def msgUndefinedAccess : String := "TypeError: Cannot read properties of undefined"

/-- `flatten` of the `flat` package applied to one row
(`data.map(flatten)` in `normalizeData`).  `Object.keys` of `null` or
`undefined` throws. -/
def flattenRow : JVal → Except String JVal
  | JVal.null => Except.error msgObjectConvert
  | JVal.undef => Except.error msgObjectConvert
  | JVal.obj kvs => Except.ok (JVal.obj (stepObj kvs ""))
  | JVal.arr xs => Except.ok (JVal.obj (stepArr xs 0 ""))
  | JVal.str s =>
    Except.ok (JVal.obj (s.data.enum.map
      (fun p => (toString p.1, JVal.str (String.mk [p.2])))))
  | _ => Except.ok (JVal.obj [])

/-- `Object.keys`. -/
def objKeys : JVal → Except String (List String)
  | JVal.null => Except.error msgObjectConvert
  | JVal.undef => Except.error msgObjectConvert
  | JVal.obj kvs => Except.ok (kvs.map Prod.fst)
  | JVal.arr xs => Except.ok ((List.range xs.length).map (fun i => toString i))
  | JVal.str s => Except.ok ((List.range s.length).map (fun i => toString i))
  | _ => Except.ok []

/-- `Object.getOwnPropertyNames(v).length` (arrays and strings also own
`length`). -/
def gopnLength : JVal → Nat
  | JVal.obj kvs => kvs.length
  | JVal.arr xs => xs.length + 1
  | JVal.str s => s.length + 1
  | _ => 0

/-- Effectful map over a list, stopping at the first thrown error, in
source order — the behaviour of `Array.prototype.map` with a throwing
callback. -/
def exceptMapM (f : α → Except String β) : List α → Except String (List β)
  | [] => Except.ok []
  | x :: xs => do
    let y ← f x
    let ys ← exceptMapM f xs
    Except.ok (y :: ys)

/-- `lodash.uniq`: first occurrence wins, order preserved. -/
def jsUniqAux : List String → List String → List String
  | [], acc => acc.reverse
  | x :: xs, acc => if x ∈ acc then jsUniqAux xs acc else jsUniqAux xs (x :: acc)

def jsUniq (l : List String) : List String := jsUniqAux l []

/-- The metadata object `(row, field, data)`-callbacks receive:
`label` and `default` of the field element (`undefined` when absent). -/
structure FieldMeta where
  label : Option String
  dflt : JVal

/-- The `value` member of a structured field element: a path string or
a computed-field function. -/
inductive FieldValue where
  | path (p : String) : FieldValue
  | func (f : JVal → FieldMeta → List JVal → JVal) : FieldValue

/-- One entry of `params.fields`: a plain path string, or an object
with optional `label`, a `value` and an optional `default` member
(`some JVal.undef` models a `default` key explicitly set to
`undefined`, which still counts for `'default' in fieldElement`). -/
inductive FieldSpec where
  | strField (p : String) : FieldSpec
  | objField (label : Option String) (value : FieldValue) (dflt : Option JVal) : FieldSpec

/-- Caller-supplied parameters, before normalization.  String options
with JavaScript `||` defaults are plain `String` (absent ≡ `""`,
which `||` treats the same); options checked with `typeof` keep the
absent/present distinction as `Option`. -/
structure RawParams where
  fields : Option (List FieldSpec) := none
  fieldNames : Option (List String) := none
  del : String := ""
  defaultValue : JVal := JVal.undef
  quotes : Option String := none
  doubleQuotes : Option String := none
  hasCSVColumnTitle : Bool := true
  eol : String := ""
  newLine : Option String := none
  flatten : Bool := false
  unwindPath : Option String := none
  excelStrings : Bool := false
  includeEmptyRows : Bool := false

/-- Parameters after `normalizeParams`.  `fieldNames` entries are
`none` when the display name is a function reference (an unlabeled
computed field), on which `JSON.stringify` returns `undefined` and the
header rendering would throw. -/
structure NParams where
  fields : List FieldSpec
  fieldNames : List (Option String)
  del : String
  eol : String
  quotes : String
  doubleQuotes : String
  defaultValue : JVal
  hasCSVColumnTitle : Bool
  includeEmptyRows : Bool
  newLine : Option String
  unwindPath : Option String
  excelStrings : Bool
  flatten : Bool

/-- `normalizeData`: type check, `data || []`, wrapping a single object
into a one-element array, and optional flattening of every row. -/
def normalizeData (data : JVal) (params : RawParams) : Except String (List JVal) :=
  if typeofIsObject data = false then
    Except.error msgTypeKind
  else
    let data := if truthy data then data else JVal.arr []
    let rows :=
      match data with
      | JVal.arr xs => xs
      | v => [v]
    if params.flatten then exceptMapM flattenRow rows else Except.ok rows

/-- `Array.isArray`. -/
def isJsArray : JVal → Bool
  | JVal.arr _ => true
  | _ => false

/-- `data.length === 0 || typeof data[0] !== 'object'` on an array. -/
def firstElemNotObject : JVal → Bool
  | JVal.arr [] => true
  | JVal.arr (x :: _) => !typeofIsObject x
  | _ => false

/-- Lines 80–103 of the source: resolve `params.fields`, inferring it
from the (raw, un-flattened) data when absent.  The result is `none`
when the source leaves `params.fields` `undefined` (non-array data,
no `flatten`). -/
def inferFields (params : RawParams) (data : JVal) : Except String (Option (List FieldSpec)) :=
  if params.fields.isNone ∧ isJsArray data = true ∧ firstElemNotObject data = true then
    Except.error msgNoFields
  else
    match params.fields with
    | some fs => Except.ok (some fs)
    | none =>
      match data with
      | JVal.arr xs => do
        let keyLists ← exceptMapM objKeys xs
        Except.ok (some ((jsUniq keyLists.flatten).map FieldSpec.strField))
      | _ =>
        if params.flatten then Except.ok (some []) else Except.ok none

/-- The display name of one field (`label || value`, or the parallel
`fieldNames[i]` for a plain path string); `none` stands for a function
reference. -/
def fieldValueName : FieldValue → Option String
  | FieldValue.path p => some p
  | FieldValue.func _ => none

def fieldDisplayName (rawNames : Option (List String)) (i : Nat) (fe : FieldSpec) :
    Option String :=
  match fe with
  | FieldSpec.strField p =>
    match rawNames with
    | some ns => ns[i]?
    | none => some p
  | FieldSpec.objField lbl v _ =>
    match lbl with
    | some l => if l ≠ "" then some l else fieldValueName v
    | none => fieldValueName v

/-- Line 106 of the source: the `fieldNames` length check (reading
`.length` of an `undefined` fields list throws a `TypeError`). -/
def checkFieldNames (params : RawParams) (fieldsOpt : Option (List FieldSpec)) :
    Except String Unit :=
  match params.fieldNames with
  | none => Except.ok ()
  | some ns =>
    match fieldsOpt with
    | none => Except.error msgUndefinedAccess
    | some fs =>
      if ns.length ≠ fs.length then Except.error msgFieldNames else Except.ok ()

/-- Lines 110–126 of the source: display names and option defaults. -/
def buildParams (params : RawParams) (fs : List FieldSpec) : NParams :=
  let quotes := params.quotes.getD "\""
  { fields := fs
    fieldNames := fs.enum.map (fun p => fieldDisplayName params.fieldNames p.1 p.2)
    del := jsOrS params.del ","
    eol := params.eol
    quotes := quotes
    doubleQuotes := params.doubleQuotes.getD (quotes ++ quotes)
    defaultValue := params.defaultValue
    hasCSVColumnTitle := params.hasCSVColumnTitle
    includeEmptyRows := params.includeEmptyRows
    newLine := params.newLine
    unwindPath := params.unwindPath
    excelStrings := params.excelStrings
    flatten := params.flatten }

/-- `normalizeParams`. -/
def normalizeParams (params : RawParams) (data : JVal) : Except String NParams := do
  let fieldsOpt ← inferFields params data
  let _ ← checkFieldNames params fieldsOpt
  match fieldsOpt with
  | none => Except.error msgUndefinedAccess
  | some fs => Except.ok (buildParams params fs)

/-- One rendered header cell:
`JSON.stringify(element).replace(/\"/g, params.quotes)`. -/
def headerCell (np : NParams) (name : String) : String :=
  String.mk (replace1 '"' np.quotes.data (jsonQuoteString name).data)

/-- The `forEach` loop of `createColumnTitles`: the delimiter is only
inserted when the accumulated string is non-empty. -/
def titlesAux (np : NParams) : List (Option String) → String → Except String String
  | [], str => Except.ok str
  | none :: _, _ => Except.error msgUndefinedAccess
  | some name :: rest, str =>
    titlesAux np rest ((if str ≠ "" then str ++ np.del else str) ++ headerCell np name)

/-- `createColumnTitles`. -/
def createColumnTitles (np : NParams) : Except String String :=
  if np.hasCSVColumnTitle then titlesAux np np.fieldNames "" else Except.ok ""

/-- `replaceQuotationMarks`: when the stringified element is quote
delimited, both the first and the last character are replaced by the
configured quote string. -/
def replaceQuotationMarks (stringifiedElement : String) (quotes : String) : String :=
  let cs := stringifiedElement.data
  let lastCharIndex := cs.length - 1
  if cs.head? = some '"' ∧ cs.getLast? = some '"' then
    String.mk ((cs.enum.map
      (fun p => if p.1 = 0 ∨ p.1 = lastCharIndex then quotes.data else [p.2])).flatten)
  else stringifiedElement

/-- `typeof val === 'object'` on a value known not to be `undefined`. -/
def typeofValIsObject : JVal → Bool
  | JVal.null => true
  | JVal.arr _ => true
  | JVal.obj _ => true
  | _ => false

def isStr : JVal → Bool
  | JVal.str _ => true
  | _ => false

/-- The serialization of one non-`undefined` cell value: lines 214–229
of the source. -/
def renderVal (np : NParams) (val : JVal) : String :=
  let stringifiedElement := (stringify val).getD ""
  let stringifiedElement :=
    if typeofValIsObject val then jsonQuoteString stringifiedElement
    else stringifiedElement
  let stringifiedElement :=
    if np.quotes ≠ "\"" then replaceQuotationMarks stringifiedElement np.quotes
    else stringifiedElement
  let stringifiedElement :=
    String.mk (replace2 '\\' '\\' ['\\'] stringifiedElement.data)
  if np.excelStrings ∧ isStr val then "\"=\"" ++ stringifiedElement ++ "\"\""
  else stringifiedElement

/-- The per-field effective default (`fieldElement.default` when the
`default` key is present, else `params.defaultValue`). -/
def effectiveDefault (np : NParams) (fe : FieldSpec) : JVal :=
  match fe with
  | FieldSpec.strField _ => np.defaultValue
  | FieldSpec.objField _ _ d => d.getD np.defaultValue

/-- The raw resolved value of one field: path lookup with default, or
the computed-field callback. -/
def resolveRaw (np : NParams) (data : List JVal) (row : JVal) (fe : FieldSpec) : JVal :=
  match fe with
  | FieldSpec.strField p => lodashGet row p (effectiveDefault np fe)
  | FieldSpec.objField _ (FieldValue.path p) _ => lodashGet row p (effectiveDefault np fe)
  | FieldSpec.objField lbl (FieldValue.func f) d => f row ⟨lbl, d.getD JVal.undef⟩ data

/-- Lines 210–212: `null`/`undefined` fall back to the effective
default. -/
def resolveVal (np : NParams) (data : List JVal) (row : JVal) (fe : FieldSpec) : JVal :=
  match resolveRaw np data row fe with
  | JVal.null => effectiveDefault np fe
  | JVal.undef => effectiveDefault np fe
  | v => v

/-- The text contributed by one cell (empty when the resolved value is
still `undefined`: the cell is omitted). -/
def cellContent (np : NParams) (data : List JVal) (row : JVal) (fe : FieldSpec) : String :=
  match resolveVal np data row fe with
  | JVal.undef => ""
  | v => renderVal np v

/-- Lines 241–245: the assembled line's escaped-quote sequences are
turned into the doubled-quote convention, segment-wise between literal
double-backslashes, and remaining double backslashes collapse. -/
def postProcessLine (np : NParams) (line : List Char) : List Char :=
  let pieces := split2 '\\' '\\' line
  let line := joinSep ['\\', '\\']
    (pieces.map (fun p => replace2 '\\' '"' np.doubleQuotes.data p))
  replace2 '\\' '\\' ['\\'] line

/-- One data line: every cell followed by the delimiter, one trailing
character stripped, then the line-level escaping pass. -/
def renderLine (np : NParams) (data : List JVal) (row : JVal) : String :=
  let raw := (np.fields.map
    (fun fe => (cellContent np data row fe).data ++ np.del.data)).flatten
  String.mk (postProcessLine np raw.dropLast)

/-- The guard of line 188: skip nullish rows, and empty records unless
`includeEmptyRows`. -/
def includeRow (np : NParams) (row : JVal) : Bool :=
  truthy row && (decide (0 < gopnLength row) || np.includeEmptyRows)

/-- `params.newLine || os.EOL || '\n'`. -/
def lineTerminator (np : NParams) (osEOL : String) : String :=
  jsOrS (np.newLine.getD "") (jsOrS osEOL "\n")

/-- `createDataRows`: the unwind expansion. -/
def createDataRows (data : List JVal) (np : NParams) : List JVal :=
  if (np.unwindPath.getD "") ≠ "" then
    let up := np.unwindPath.getD ""
    data.flatMap (fun dataEl =>
      match lodashGetRaw dataEl up with
      | JVal.arr (x :: xs) => (x :: xs).map (fun el => lodashSet dataEl up el)
      | JVal.arr [] => [lodashSet dataEl up JVal.undef]
      | _ => [dataEl])
  else data

/-- The body of the `forEach` of `createColumnContent` for one row. -/
def appendRow (np : NParams) (data : List JVal) (osEOL : String)
    (output : String) (row : JVal) : String :=
  if includeRow np row then
    let line := renderLine np data row
    if output ≠ "" then output ++ lineTerminator np osEOL ++ line ++ np.eol
    else line ++ np.eol
  else output

/-- `createColumnContent`. -/
def createColumnContent (data : List JVal) (output : String) (np : NParams)
    (osEOL : String) : String :=
  (createDataRows data np).foldl (appendRow np data osEOL) output

/-- The exported conversion function (`module.exports`). -/
def json2csv (data : JVal) (params : RawParams) (osEOL : String) :
    Except String String := do
  let normalizedData ← normalizeData data params
  let np ← normalizeParams params data
  let titles ← createColumnTitles np
  Except.ok (createColumnContent normalizedData titles np osEOL)

/-! ## General helper lemmas -/

@[simp]
theorem ok_bind (a : α) (f : α → Except String β) :
    ((Except.ok a : Except String α) >>= f) = f a := rfl

@[simp]
theorem error_bind (e : String) (f : α → Except String β) :
    ((Except.error e : Except String α) >>= f) = Except.error e := rfl

theorem bind_ok_inv {x : Except String α} {f : α → Except String β} {w : β}
    (h : (x >>= f) = Except.ok w) :
    ∃ a, x = Except.ok a ∧ f a = Except.ok w := by
  cases hx : x with
  | error e =>
    rw [hx] at h
    exact absurd h (by simp)
  | ok a =>
    rw [hx] at h
    exact ⟨a, rfl, h⟩

theorem bind_error_inv {x : Except String α} {f : α → Except String β} {e : String}
    (h : (x >>= f) = Except.error e) :
    x = Except.error e ∨ ∃ a, x = Except.ok a ∧ f a = Except.error e := by
  cases x with
  | error e2 =>
    simp at h
    exact Or.inl (by rw [h])
  | ok a => exact Or.inr ⟨a, rfl, h⟩

theorem strData_append (a b : String) : (a ++ b).data = a.data ++ b.data := rfl

theorem strAppend_assoc (a b c : String) : a ++ b ++ c = a ++ (b ++ c) := by
  cases a; cases b; cases c
  apply congrArg String.mk
  simp [strData_append]

theorem strAppend_ne_empty_left (a b : String) (h : a ≠ "") : a ++ b ≠ "" := by
  intro hc
  apply h
  have := congrArg String.data hc
  rw [strData_append] at this
  rcases List.append_eq_nil.mp this with ⟨h1, _⟩
  cases a
  simp_all

theorem countChar_append (c : Char) (a b : String) :
    countChar c (a ++ b) = countChar c a + countChar c b := by
  simp [countChar, strData_append, List.count_append]

theorem empty_append_str (s : String) : "" ++ s = s := by
  cases s
  apply congrArg String.mk
  simp [strData_append]

/-! ## Claim C2: unwind semantics -/

/-- Claim C2: with an unwind path configured, a non-empty array value
at the path turns the row into one cloned row per element, in source
order, with the path rewritten to that element; an empty array gives
exactly one row with the path set to the `undefined` marker; a
non-array value passes the row through unchanged; rows are expanded
contiguously, preserving overall order (the expansion distributes over
concatenation of the row list). -/
theorem claim2 (np : NParams) (up : String)
    (hup : np.unwindPath = some up) (hne : up ≠ "") :
    (∀ d1 d2 : List JVal,
      createDataRows (d1 ++ d2) np = createDataRows d1 np ++ createDataRows d2 np) ∧
    (∀ (r : JVal) (es : List JVal), es ≠ [] → lodashGetRaw r up = JVal.arr es →
      createDataRows [r] np = es.map (fun el => lodashSet r up el)) ∧
    (∀ r : JVal, lodashGetRaw r up = JVal.arr [] →
      createDataRows [r] np = [lodashSet r up JVal.undef]) ∧
    (∀ r : JVal, (∀ es : List JVal, lodashGetRaw r up ≠ JVal.arr es) →
      createDataRows [r] np = [r]) := by
  refine ⟨?_, ?_, ?_, ?_⟩
  · intro d1 d2
    simp [createDataRows, hup, hne]
  · intro r es hes harr
    cases es with
    | nil => exact absurd rfl hes
    | cons x xs =>
      simp [createDataRows, hup, hne, harr]
  · intro r harr
    simp [createDataRows, hup, hne, harr]
  · intro r harr
    cases hget : lodashGetRaw r up <;>
      first
        | exact absurd hget (harr _)
        | simp [createDataRows, hup, hne, hget]

/-- Concrete parameters used to instantiate the unwind claim. -/
def unwindExampleParams : NParams :=
  buildParams { unwindPath := some "colors" }
    [FieldSpec.strField "id", FieldSpec.strField "colors"]

/-- Witness for C2: the spec's own example rows. -/
theorem claim2_witness :
    createDataRows
        [JVal.obj [("id", JVal.num 1),
                   ("colors", JVal.arr [JVal.str "red", JVal.str "blue"])]]
        unwindExampleParams =
      [JVal.obj [("id", JVal.num 1), ("colors", JVal.str "red")],
       JVal.obj [("id", JVal.num 1), ("colors", JVal.str "blue")]] ∧
    createDataRows [JVal.obj [("id", JVal.num 1), ("colors", JVal.arr [])]]
        unwindExampleParams =
      [JVal.obj [("id", JVal.num 1), ("colors", JVal.undef)]] :=
  ⟨((claim2 unwindExampleParams "colors" rfl (by decide)).2.1
      (JVal.obj [("id", JVal.num 1),
                 ("colors", JVal.arr [JVal.str "red", JVal.str "blue"])])
      [JVal.str "red", JVal.str "blue"] (by simp) rfl).trans rfl,
   ((claim2 unwindExampleParams "colors" rfl (by decide)).2.2.1
      (JVal.obj [("id", JVal.num 1), ("colors", JVal.arr [])]) rfl).trans rfl⟩

/-! ## Claim C3: the default-options example -/

/-- Claim C3 counterexample: under default options, numeric cells are
NOT wrapped in the quote character — the actual output is
`"a"\n1\n2`, not the claimed `"a"\n"1"\n"2"`. -/
theorem claim3_counterexample :
    json2csv (JVal.arr [JVal.obj [("a", JVal.num 1)], JVal.obj [("a", JVal.num 2)]])
      { fields := some [FieldSpec.strField "a"] } "\n" = Except.ok "\"a\"\n1\n2" ∧
    ("\"a\"\n1\n2" : String) ≠ "\"a\"\n\"1\"\n\"2\"" :=
  ⟨rfl, by decide⟩

/-- Claim C3 (amended): for rows `[«a:1», «a:2»]`, fields `['a']` and
default options with line terminator `\n`, the output is the header
`"a"` quoted and the numeric data cells unquoted: `"a"\n1\n2`
(`JSON.stringify` of a number has no quotes). -/
theorem claim3 :
    json2csv (JVal.arr [JVal.obj [("a", JVal.num 1)], JVal.obj [("a", JVal.num 2)]])
      { fields := some [FieldSpec.strField "a"] } "\n" = Except.ok "\"a\"\n1\n2" := rfl

/-! ## Claim C5: omitted undefined cells vs empty strings -/

/-- Claim C5: if the resolved cell value (after default substitution)
is still `undefined`, the cell contributes no content at all (the line
gets only the bare delimiter, since `renderLine` appends
`cellContent ++ del` for every field); with the default quote
character a resolved empty-string value contributes a non-empty quoted
literal, so the two cases are distinguishable. -/
theorem claim5 (np : NParams) (data : List JVal) (row row2 : JVal)
    (fe fe2 : FieldSpec) :
    (resolveVal np data row fe = JVal.undef → cellContent np data row fe = "") ∧
    (np.quotes = "\"" → resolveVal np data row2 fe2 = JVal.str "" →
      cellContent np data row2 fe2 ≠ "") := by
  constructor
  · intro h
    unfold cellContent
    rw [h]
  · intro hq h
    unfold cellContent
    rw [h]
    unfold renderVal
    rw [hq]
    simp only [stringify, isStr]
    cases hex : np.excelStrings <;> decide

/-- Default-quote parameters over a single path field, used by several
witnesses. -/
def defaultExampleParams : NParams := buildParams {} [FieldSpec.strField "a"]

/-- Witness for C5: a missing field of an empty object renders to
nothing; a present empty-string field renders to a non-empty quoted
cell. -/
theorem claim5_witness :
    cellContent defaultExampleParams [] (JVal.obj []) (FieldSpec.strField "a") = "" ∧
    cellContent defaultExampleParams [] (JVal.obj [("a", JVal.str "")])
      (FieldSpec.strField "a") ≠ "" :=
  ⟨(claim5 defaultExampleParams [] (JVal.obj []) (JVal.obj [("a", JVal.str "")])
      (FieldSpec.strField "a") (FieldSpec.strField "a")).1 rfl,
   (claim5 defaultExampleParams [] (JVal.obj []) (JVal.obj [("a", JVal.str "")])
      (FieldSpec.strField "a") (FieldSpec.strField "a")).2 rfl rfl⟩

/-! ## Claim C7: fieldNames length mismatch -/

/-- Claim C7: a supplied `fieldNames` whose length differs from the
resolved field list makes the conversion fail during normalization
with exactly the configured message, before any row is rendered (the
error is the whole result — no partial output). -/
theorem claim7 (data : JVal) (params : RawParams) (osEOL : String)
    (rows : List JVal) (fs : List FieldSpec) (ns : List String)
    (hrows : normalizeData data params = Except.ok rows)
    (hinf : inferFields params data = Except.ok (some fs))
    (hns : params.fieldNames = some ns)
    (hlen : ns.length ≠ fs.length) :
    json2csv data params osEOL =
      Except.error
        "fieldNames and fields should be of the same length, if fieldNames is provided." := by
  have hcf : checkFieldNames params (some fs) = Except.error msgFieldNames := by
    unfold checkFieldNames
    rw [hns]
    simp [hlen]
  have hnp : normalizeParams params data = Except.error msgFieldNames := by
    unfold normalizeParams
    rw [hinf]
    simp [hcf]
  unfold json2csv
  rw [hrows, hnp]
  rfl

/-- Witness for C7, mirroring the repository's own test input. -/
theorem claim7_witness :
    json2csv (JVal.arr [JVal.obj [("carModel", JVal.str "Audi")]])
      { fields := some [FieldSpec.strField "carModel"],
        fieldNames := some ["test", "blah"] } "\n" =
      Except.error
        "fieldNames and fields should be of the same length, if fieldNames is provided." :=
  claim7 (JVal.arr [JVal.obj [("carModel", JVal.str "Audi")]])
    { fields := some [FieldSpec.strField "carModel"],
      fieldNames := some ["test", "blah"] } "\n"
    [JVal.obj [("carModel", JVal.str "Audi")]]
    [FieldSpec.strField "carModel"] ["test", "blah"] rfl rfl rfl (by decide)

/-! ## Claim C8: the doubleQuotes default -/

/-- Claim C8 counterexample: with the default quote character, the
effective `doubleQuotes` default is the quote character doubled
(`Array(3).join` inserts the separator twice), not tripled. -/
theorem claim8_counterexample :
    (normalizeParams { fields := some [FieldSpec.strField "a"] } (JVal.arr [])).map
      (fun np => np.doubleQuotes) = Except.ok "\"\"" ∧
    ("\"\"" : String) ≠ "\"\"\"" :=
  ⟨rfl, by decide⟩

/-- Claim C8 (amended): when `doubleQuotes` is omitted the effective
replacement for an embedded quote is the configured quote character
repeated twice (the CSV doubling convention). -/
theorem claim8 (params : RawParams) (data : JVal) (np : NParams)
    (hdq : params.doubleQuotes = none)
    (h : normalizeParams params data = Except.ok np) :
    np.doubleQuotes = np.quotes ++ np.quotes := by
  unfold normalizeParams at h
  obtain ⟨fo, h1, h2⟩ := bind_ok_inv h
  obtain ⟨u, h3, h4⟩ := bind_ok_inv h2
  cases fo with
  | none => simp at h4
  | some fs =>
    have : buildParams params fs = np := by
      simpa using h4
    rw [← this]
    simp [buildParams, hdq]

/-- Witness for C8 at the default configuration. -/
theorem claim8_witness :
    defaultExampleParams.doubleQuotes =
      defaultExampleParams.quotes ++ defaultExampleParams.quotes :=
  claim8 {} (JVal.arr [JVal.obj [("a", JVal.num 1)]]) defaultExampleParams rfl rfl

/-! ## Claim C9: null input with explicit fields -/

/-- Claim C9: `null` input passes the type check (`typeof null ===
'object'`), is coerced to an empty row sequence, and with an explicit
non-empty field list the conversion succeeds, returning exactly the
header (or the empty string when the header is disabled). -/
theorem claim9 (params : RawParams) (osEOL : String) (fs : List FieldSpec)
    (np : NParams) (t : String)
    (hfs : params.fields = some fs) (hne : fs ≠ [])
    (hnp : normalizeParams params JVal.null = Except.ok np)
    (ht : createColumnTitles np = Except.ok t) :
    json2csv JVal.null params osEOL = Except.ok t ∧
    (np.hasCSVColumnTitle = false → t = "") := by
  constructor
  · have hrows : normalizeData JVal.null params = Except.ok [] := by
      unfold normalizeData
      cases hf : params.flatten <;> simp [typeofIsObject, truthy, exceptMapM, hf]
    unfold json2csv
    rw [hrows, hnp]
    simp only [ok_bind]
    rw [ht]
    simp only [ok_bind]
    have hcdr : createDataRows [] np = [] := by
      unfold createDataRows
      split <;> simp
    unfold createColumnContent
    rw [hcdr]
    rfl
  · intro hcol
    unfold createColumnTitles at ht
    rw [hcol] at ht
    simp at ht
    exact ht.symm

/-- Witness for C9 with two explicit fields. -/
theorem claim9_witness :
    json2csv JVal.null
      { fields := some [FieldSpec.strField "carModel", FieldSpec.strField "price"] }
      "\n" = Except.ok "\"carModel\",\"price\"" :=
  (claim9 { fields := some [FieldSpec.strField "carModel", FieldSpec.strField "price"] }
    "\n" [FieldSpec.strField "carModel", FieldSpec.strField "price"]
    (buildParams
      { fields := some [FieldSpec.strField "carModel", FieldSpec.strField "price"] }
      [FieldSpec.strField "carModel", FieldSpec.strField "price"])
    "\"carModel\",\"price\"" rfl (by simp) rfl rfl).1

/-! ## Claim C6: the type check and its precedence -/

theorem flattenRow_error (v : JVal) (e : String)
    (h : flattenRow v = Except.error e) : e = msgObjectConvert := by
  cases v <;> simp_all [flattenRow]

theorem objKeys_error (v : JVal) (e : String)
    (h : objKeys v = Except.error e) : e = msgObjectConvert := by
  cases v <;> simp_all [objKeys]

theorem exceptMapM_error {f : α → Except String β} :
    ∀ {xs : List α} {e : String}, exceptMapM f xs = Except.error e →
      ∃ x ∈ xs, f x = Except.error e := by
  intro xs
  induction xs with
  | nil =>
    intro e h
    simp [exceptMapM] at h
  | cons x rest ih =>
    intro e h
    unfold exceptMapM at h
    cases hx : f x with
    | error e2 =>
      rw [hx] at h
      simp only [error_bind] at h
      injection h with h
      exact ⟨x, List.mem_cons_self x rest, hx.trans (by rw [h])⟩
    | ok y =>
      rw [hx] at h
      simp only [ok_bind] at h
      cases hm : exceptMapM f rest with
      | error e2 =>
        rw [hm] at h
        simp only [error_bind] at h
        injection h with h
        obtain ⟨z, hz, hfz⟩ := ih (hm.trans (by rw [h]))
        exact ⟨z, List.mem_cons_of_mem x hz, hfz⟩
      | ok ys =>
        rw [hm] at h
        simp at h

theorem normalizeData_error (data : JVal) (params : RawParams) (e : String)
    (hobj : typeofIsObject data = true)
    (h : normalizeData data params = Except.error e) : e = msgObjectConvert := by
  unfold normalizeData at h
  rw [hobj] at h
  simp only [Bool.true_eq_false, if_false] at h
  split at h
  · obtain ⟨r, _, hr⟩ := exceptMapM_error h
    exact flattenRow_error r e hr
  · simp at h

theorem inferFields_error (params : RawParams) (data : JVal) (e : String)
    (h : inferFields params data = Except.error e) :
    e = msgNoFields ∨ e = msgObjectConvert := by
  unfold inferFields at h
  split at h
  · injection h with h
    exact Or.inl h.symm
  · cases hpf : params.fields with
    | some fs =>
      rw [hpf] at h
      simp at h
    | none =>
      rw [hpf] at h
      cases data with
      | arr xs =>
        rcases bind_error_inv h with h1 | ⟨ks, _, h2⟩
        · obtain ⟨x, _, hx⟩ := exceptMapM_error h1
          exact Or.inr (objKeys_error x e hx)
        · simp at h2
      | undef => cases hf : params.flatten <;> simp [hf] at h
      | null => cases hf : params.flatten <;> simp [hf] at h
      | bool b => cases hf : params.flatten <;> simp [hf] at h
      | num n => cases hf : params.flatten <;> simp [hf] at h
      | str s => cases hf : params.flatten <;> simp [hf] at h
      | obj kvs => cases hf : params.flatten <;> simp [hf] at h

theorem checkFieldNames_error (params : RawParams) (fo : Option (List FieldSpec))
    (e : String) (h : checkFieldNames params fo = Except.error e) :
    e = msgUndefinedAccess ∨ e = msgFieldNames := by
  unfold checkFieldNames at h
  cases hfn : params.fieldNames with
  | none =>
    rw [hfn] at h
    simp at h
  | some ns =>
    rw [hfn] at h
    cases fo with
    | none =>
      simp at h
      exact Or.inl h.symm
    | some fs =>
      by_cases hl : ns.length = fs.length
      · simp [hl] at h
      · simp [hl] at h
        exact Or.inr h.symm

theorem normalizeParams_error (params : RawParams) (data : JVal) (e : String)
    (h : normalizeParams params data = Except.error e) :
    e = msgNoFields ∨ e = msgObjectConvert ∨ e = msgUndefinedAccess ∨ e = msgFieldNames := by
  unfold normalizeParams at h
  rcases bind_error_inv h with h1 | ⟨fo, _, h2⟩
  · rcases inferFields_error params data e h1 with h | h
    · exact Or.inl h
    · exact Or.inr (Or.inl h)
  · rcases bind_error_inv h2 with h3 | ⟨u, _, h4⟩
    · rcases checkFieldNames_error params fo e h3 with h | h
      · exact Or.inr (Or.inr (Or.inl h))
      · exact Or.inr (Or.inr (Or.inr h))
    · cases fo with
      | none =>
        injection h4 with h4
        exact Or.inr (Or.inr (Or.inl h4.symm))
      | some fs => simp at h4

theorem titlesAux_error (np : NParams) :
    ∀ (names : List (Option String)) (acc e : String),
      titlesAux np names acc = Except.error e → e = msgUndefinedAccess := by
  intro names
  induction names with
  | nil =>
    intro acc e h
    simp [titlesAux] at h
  | cons o rest ih =>
    intro acc e h
    cases o with
    | none =>
      unfold titlesAux at h
      injection h with h
      exact h.symm
    | some s =>
      unfold titlesAux at h
      exact ih _ _ h

theorem createColumnTitles_error (np : NParams) (e : String)
    (h : createColumnTitles np = Except.error e) : e = msgUndefinedAccess := by
  unfold createColumnTitles at h
  split at h
  · exact titlesAux_error np _ _ _ h
  · simp at h

/-- Claim C6: the conversion throws exactly the message `Data needs to
be an object or array` precisely when `typeof data !== 'object'`
(a bare string, number, boolean or `undefined`; `null` counts as
object-typed in JavaScript and passes).  The error wins over every
other failure: it is raised for every parameter configuration, before
parameter normalization and row processing; and no object/array input
can ever produce this message. -/
theorem claim6 (data : JVal) (params : RawParams) (osEOL : String) :
    (typeofIsObject data = false →
      json2csv data params osEOL = Except.error "Data needs to be an object or array") ∧
    (typeofIsObject data = true →
      json2csv data params osEOL ≠ Except.error "Data needs to be an object or array") := by
  constructor
  · intro h
    have hnd : normalizeData data params = Except.error msgTypeKind := by
      unfold normalizeData
      rw [h]
      simp
    unfold json2csv
    rw [hnd]
    rfl
  · intro h hc
    unfold json2csv at hc
    rcases bind_error_inv hc with h1 | ⟨rows, _, h2⟩
    · exact absurd (normalizeData_error data params _ h h1) (by decide)
    · rcases bind_error_inv h2 with h3 | ⟨np, _, h4⟩
      · rcases normalizeParams_error params data _ h3 with h5 | h5 | h5 | h5 <;>
          exact absurd h5 (by decide)
      · rcases bind_error_inv h4 with h5 | ⟨t, _, h6⟩
        · exact absurd (createColumnTitles_error np _ h5) (by decide)
        · simp at h6

/-- Witness for C6: a bare string throws the type error even with no
parameters at all; a well-formed array input never produces it. -/
theorem claim6_witness :
    json2csv (JVal.str "not an object") {} "\n" =
      Except.error "Data needs to be an object or array" ∧
    json2csv (JVal.arr [JVal.obj [("a", JVal.num 1)]])
      { fields := some [FieldSpec.strField "a"] } "\n" ≠
      Except.error "Data needs to be an object or array" :=
  ⟨(claim6 (JVal.str "not an object") {} "\n").1 rfl,
   (claim6 (JVal.arr [JVal.obj [("a", JVal.num 1)]])
      { fields := some [FieldSpec.strField "a"] } "\n").2 rfl⟩

/-! ## Claim C4: document assembly -/

theorem str_append_empty (s : String) : s ++ "" = s := by
  cases s
  apply congrArg String.mk
  simp [strData_append]

/-- The text appended after a non-empty accumulated output for a list
of (post-expansion) rows: for each included row, the line terminator,
then the rendered line, then the configured `eol` marker. -/
def tailLines (np : NParams) (data : List JVal) (osEOL : String) : List JVal → String
  | [] => ""
  | r :: rs =>
    (if includeRow np r then lineTerminator np osEOL ++ renderLine np data r ++ np.eol
     else "") ++ tailLines np data osEOL rs

theorem foldl_appendRow (np : NParams) (data : List JVal) (osEOL : String) :
    ∀ (rows : List JVal) (out : String), out ≠ "" →
      rows.foldl (appendRow np data osEOL) out = out ++ tailLines np data osEOL rows := by
  intro rows
  induction rows with
  | nil =>
    intro out hout
    simp [tailLines, str_append_empty]
  | cons r rs ih =>
    intro out hout
    simp only [List.foldl_cons, tailLines]
    by_cases hinc : includeRow np r
    · have h1 : appendRow np data osEOL out r =
          out ++ (lineTerminator np osEOL ++ renderLine np data r ++ np.eol) := by
        simp [appendRow, hinc, hout, strAppend_assoc]
      rw [h1, ih _ (strAppend_ne_empty_left _ _ hout)]
      rw [if_pos hinc, strAppend_assoc]
    · have h1 : appendRow np data osEOL out r = out := by
        simp [appendRow, hinc]
      rw [h1, ih _ hout, if_neg hinc, empty_append_str]

/-- Claim C4 counterexample: with `eol := "X"`, the header line is NOT
followed by the eol marker — only data lines are.  The actual output
for one row is `"a"\n1X`, not the claimed `"a"X\n1X`. -/
theorem claim4_counterexample :
    json2csv (JVal.arr [JVal.obj [("a", JVal.num 1)]])
      { fields := some [FieldSpec.strField "a"], eol := "X" } "\n" =
      Except.ok "\"a\"\n1X" ∧
    ("\"a\"\n1X" : String) ≠ "\"a\"X\n1X" :=
  ⟨rfl, by decide⟩

/-- Claim C4 (amended): when the (non-empty) header is enabled, the
document is the header followed, for each included data row, by the
configured line terminator, then the rendered line, then the `eol`
marker — i.e. lines are joined by the terminator and `eol` is appended
after every data line, but not after the header line. -/
theorem claim4 (data0 : JVal) (params : RawParams) (osEOL : String)
    (rows : List JVal) (np : NParams) (t : String)
    (h1 : normalizeData data0 params = Except.ok rows)
    (h2 : normalizeParams params data0 = Except.ok np)
    (h3 : createColumnTitles np = Except.ok t)
    (ht : t ≠ "") :
    json2csv data0 params osEOL =
      Except.ok (t ++ tailLines np rows osEOL (createDataRows rows np)) := by
  unfold json2csv
  rw [h1, h2]
  simp only [ok_bind]
  rw [h3]
  simp only [ok_bind]
  unfold createColumnContent
  rw [foldl_appendRow np rows osEOL _ t ht]

/-- Witness for C4 on a one-row input with `eol := "X"`. -/
theorem claim4_witness :
    json2csv (JVal.arr [JVal.obj [("a", JVal.num 1)]])
      { fields := some [FieldSpec.strField "a"], eol := "X" } "\n" =
      Except.ok ("\"a\"" ++
        tailLines
          (buildParams { fields := some [FieldSpec.strField "a"], eol := "X" }
            [FieldSpec.strField "a"])
          [JVal.obj [("a", JVal.num 1)]] "\n"
          (createDataRows [JVal.obj [("a", JVal.num 1)]]
            (buildParams { fields := some [FieldSpec.strField "a"], eol := "X" }
              [FieldSpec.strField "a"]))) :=
  claim4 (JVal.arr [JVal.obj [("a", JVal.num 1)]])
    { fields := some [FieldSpec.strField "a"], eol := "X" } "\n"
    [JVal.obj [("a", JVal.num 1)]]
    (buildParams { fields := some [FieldSpec.strField "a"], eol := "X" }
      [FieldSpec.strField "a"])
    "\"a\"" rfl rfl rfl (by decide)

/-! ## Claim C10: field inference happens before flattening -/

theorem mem_stepObj {p : String × JVal} :
    ∀ {kvs : List (String × JVal)} {prev : String}, p ∈ stepObj kvs prev →
      ∃ kv ∈ kvs, p ∈ stepEntry kv.1 kv.2 prev := by
  intro kvs
  induction kvs with
  | nil =>
    intro prev h
    simp [stepObj] at h
  | cons kv rest ih =>
    intro prev h
    rw [stepObj] at h
    rcases List.mem_append.mp h with h | h
    · exact ⟨kv, List.mem_cons_self _ _, h⟩
    · obtain ⟨kv2, hin, hm⟩ := ih h
      exact ⟨kv2, List.mem_cons_of_mem _ hin, hm⟩

theorem mem_stepArr {p : String × JVal} :
    ∀ {xs : List JVal} {i : Nat} {prev : String}, p ∈ stepArr xs i prev →
      ∃ x ∈ xs, ∃ j : Nat, p ∈ stepEntry (toString j) x prev := by
  intro xs
  induction xs with
  | nil =>
    intro i prev h
    simp [stepArr] at h
  | cons x rest ih =>
    intro i prev h
    rw [stepArr] at h
    rcases List.mem_append.mp h with h | h
    · exact ⟨x, List.mem_cons_self _ _, i, h⟩
    · obtain ⟨y, hin, j, hm⟩ := ih h
      exact ⟨y, List.mem_cons_of_mem _ hin, j, hm⟩

/-- Every key produced by the `flat` step under a non-empty prefix is
strictly longer than the prefix (each nesting level appends `"." ++ k`). -/
theorem stepEntry_key_longer :
    ∀ (n : Nat) (v : JVal) (k prev : String) (p : String × JVal),
      sizeOf v ≤ n → prev ≠ "" → p ∈ stepEntry k v prev →
      prev.length < p.1.length := by
  intro n
  induction n with
  | zero =>
    intro v k prev p hsz _ _
    exact absurd hsz (by cases v <;> simp)
  | succ n ih =>
    intro v k prev p hsz hprev hmem
    have hdot : (".").length = 1 := rfl
    have hlen : prev.length < (prev ++ "." ++ k).length := by
      simp [String.length_append, hdot]
      omega
    have hne2 : (prev ++ "." ++ k) ≠ "" := by
      intro hc
      have h0 := congrArg String.length hc
      simp [String.length_append, hdot] at h0
    cases v with
    | obj kvs0 =>
      cases kvs0 with
      | nil =>
        simp only [stepEntry, if_pos hprev] at hmem
        rcases List.mem_singleton.mp hmem with rfl
        exact hlen
      | cons kv rest =>
        simp only [stepEntry, if_pos hprev] at hmem
        obtain ⟨kv2, hin, hm⟩ := mem_stepObj hmem
        have hv : sizeOf kv2.2 ≤ n := by
          have h1 := List.sizeOf_lt_of_mem hin
          obtain ⟨k2, v2⟩ := kv2
          simp at h1 hsz ⊢
          omega
        exact lt_trans hlen (ih kv2.2 kv2.1 _ p hv hne2 hm)
    | arr xs0 =>
      cases xs0 with
      | nil =>
        simp only [stepEntry, if_pos hprev] at hmem
        rcases List.mem_singleton.mp hmem with rfl
        exact hlen
      | cons x rest =>
        simp only [stepEntry, if_pos hprev] at hmem
        obtain ⟨y, hin, j, hm⟩ := mem_stepArr hmem
        have hv : sizeOf y ≤ n := by
          have h1 := List.sizeOf_lt_of_mem hin
          simp at h1 hsz ⊢
          omega
        exact lt_trans hlen (ih y (toString j) _ p hv hne2 hm)
    | undef =>
      simp only [stepEntry, if_pos hprev] at hmem
      rcases List.mem_singleton.mp hmem with rfl
      exact hlen
    | null =>
      simp only [stepEntry, if_pos hprev] at hmem
      rcases List.mem_singleton.mp hmem with rfl
      exact hlen
    | bool b =>
      simp only [stepEntry, if_pos hprev] at hmem
      rcases List.mem_singleton.mp hmem with rfl
      exact hlen
    | num m =>
      simp only [stepEntry, if_pos hprev] at hmem
      rcases List.mem_singleton.mp hmem with rfl
      exact hlen
    | str s =>
      simp only [stepEntry, if_pos hprev] at hmem
      rcases List.mem_singleton.mp hmem with rfl
      exact hlen

/-- Claim C10: with `fields` omitted and `flatten` enabled, the field
list is inferred from the original, un-flattened rows (here: the single
top-level key `a`), while the rendered rows are the flattened ones; for
a row whose only data lives below the nested key, the inferred column's
cell therefore resolves to the (per-call) default value, not to the
flattened dotted-key value. -/
theorem claim10 (params : RawParams) (data2 : List JVal) (a : String)
    (kvs : List (String × JVal)) (d : JVal) (np : NParams) (fr : JVal)
    (hfields : params.fields = none) (hflat : params.flatten = true)
    (ha1 : a.data.contains '.' = false) (ha2 : a.data.contains '[' = false)
    (hane : a ≠ "") (hkvs : kvs ≠ [])
    (hfr : flattenRow (JVal.obj [(a, JVal.obj kvs)]) = Except.ok fr)
    (hd : np.defaultValue = d) :
    inferFields params (JVal.arr [JVal.obj [(a, JVal.obj kvs)]]) =
      Except.ok (some [FieldSpec.strField a]) ∧
    normalizeData (JVal.arr [JVal.obj [(a, JVal.obj kvs)]]) params =
      Except.ok [fr] ∧
    resolveVal np data2 fr (FieldSpec.strField a) = d := by
  refine ⟨?_, ?_, ?_⟩
  · unfold inferFields
    rw [hfields]
    simp [isJsArray, firstElemNotObject, typeofIsObject, exceptMapM, objKeys,
      jsUniq, jsUniqAux]
  · unfold normalizeData
    simp [typeofIsObject, truthy, hflat, exceptMapM, hfr]
  · have hfr2 : fr = JVal.obj (stepObj [(a, JVal.obj kvs)] "") := by
      unfold flattenRow at hfr
      injection hfr with h
      exact h.symm
    cases kvs with
    | nil => exact absurd rfl hkvs
    | cons kv rest =>
      have hstep : stepObj [(a, JVal.obj (kv :: rest))] "" =
          stepObj (kv :: rest) a := by
        simp [stepObj, stepEntry]
      rw [hstep] at hfr2
      have hkeys : ∀ p ∈ stepObj (kv :: rest) a, a.length < p.1.length := by
        intro p hp
        obtain ⟨kv2, hin, hm⟩ := mem_stepObj hp
        exact stepEntry_key_longer (sizeOf kv2.2) kv2.2 kv2.1 a p le_rfl hane hm
      have hfind : (stepObj (kv :: rest) a).find?
          (fun q => q.1 == a) = none := by
        apply List.find?_eq_none.mpr
        intro q hq
        simp only [beq_iff_eq]
        intro heq
        have := hkeys q hq
        rw [heq] at this
        omega
      have hcast : castPath a fr = [a] := by
        unfold castPath isDeepProp
        rw [ha1, ha2]
        simp
      have hraw : lodashGetRaw fr a = JVal.undef := by
        unfold lodashGetRaw
        rw [hcast, hfr2]
        simp [getPath, getSeg, hfind]
      have hres : resolveRaw np data2 fr (FieldSpec.strField a) = d := by
        simp only [resolveRaw, lodashGet]
        rw [hraw]
        simp [effectiveDefault, hd]
      simp only [resolveVal]
      rw [hres]
      cases d <;> simp [effectiveDefault, hd]

/-- Witness for C10: the row «a: «b:1»» with `flatten` on, no explicit
fields and default value `NULL`. -/
theorem claim10_witness :
    inferFields { flatten := true }
      (JVal.arr [JVal.obj [("a", JVal.obj [("b", JVal.num 1)])]]) =
      Except.ok (some [FieldSpec.strField "a"]) ∧
    normalizeData (JVal.arr [JVal.obj [("a", JVal.obj [("b", JVal.num 1)])]])
      { flatten := true } = Except.ok [JVal.obj [("a.b", JVal.num 1)]] ∧
    resolveVal
      (buildParams { flatten := true, defaultValue := JVal.str "NULL" }
        [FieldSpec.strField "a"])
      [] (JVal.obj [("a.b", JVal.num 1)]) (FieldSpec.strField "a") =
      JVal.str "NULL" :=
  claim10 { flatten := true } [] "a" [("b", JVal.num 1)] (JVal.str "NULL")
    (buildParams { flatten := true, defaultValue := JVal.str "NULL" }
      [FieldSpec.strField "a"])
    (JVal.obj [("a.b", JVal.num 1)])
    rfl rfl rfl rfl (by decide) (by simp) rfl rfl

/-! ## Claim C1: delimiter occurrences per emitted line -/

theorem count_replace2 (a b c : Char) (repl : List Char)
    (hca : c ≠ a) (hcb : c ≠ b) (hcr : c ∉ repl) :
    ∀ s : List Char, (replace2 a b repl s).count c = s.count c := by
  intro s
  induction s using replace2.induct a b repl with
  | case1 => rfl
  | case2 x => rfl
  | case3 x d rest hab ih =>
    rw [replace2, if_pos hab]
    simp [List.count_append, List.count_eq_zero.mpr hcr, ih,
      List.count_cons, hab.1, hab.2, Ne.symm hca, Ne.symm hcb]
  | case4 x d rest hab ih =>
    rw [replace2, if_neg hab]
    simp [List.count_cons, ih]

theorem split2_ne_nil (a b : Char) (s : List Char) : split2 a b s ≠ [] := by
  match s with
  | [] => simp [split2]
  | [c] => simp [split2]
  | c :: d :: rest =>
    rw [split2]
    split
    · simp
    · split <;> simp

theorem joinSep_cons_head (sep : List Char) (c : Char) (p : List Char)
    (ps : List (List Char)) :
    joinSep sep ((c :: p) :: ps) = c :: joinSep sep (p :: ps) := by
  cases ps <;> simp [joinSep]

theorem joinSep_split2 (a b : Char) :
    ∀ s : List Char, joinSep [a, b] (split2 a b s) = s := by
  intro s
  induction s using split2.induct a b with
  | case1 => rfl
  | case2 x => rfl
  | case3 x d rest hab ih =>
    rw [split2, if_pos hab]
    cases hsp : split2 a b rest with
    | nil => exact absurd hsp (split2_ne_nil a b rest)
    | cons p ps =>
      rw [hsp] at ih
      simp [joinSep, ih, hab.1, hab.2]
  | case4 x d rest hab hnil ih =>
    exact absurd hnil (split2_ne_nil a b (d :: rest))
  | case5 x d rest hab p ps hsp ih =>
    rw [hsp] at ih
    rw [split2, if_neg hab, hsp]
    show joinSep [a, b] ((x :: p) :: ps) = x :: d :: rest
    rw [joinSep_cons_head, ih]

theorem count_joinSep (c : Char) (sep : List Char) (hc : c ∉ sep) :
    ∀ l : List (List Char), (joinSep sep l).count c = (l.map (List.count c)).sum := by
  intro l
  induction l with
  | nil => simp [joinSep]
  | cons x xs ih =>
    cases xs with
    | nil => simp [joinSep]
    | cons y ys =>
      rw [joinSep]
      simp only [List.count_append, List.map_cons, List.sum_cons]
      rw [List.count_eq_zero.mpr hc, ih]
      simp

theorem count_postProcessLine (np : NParams) (c : Char)
    (hc1 : c ≠ '\\') (hc2 : c ≠ '"') (hdq : c ∉ np.doubleQuotes.data) :
    ∀ line : List Char, (postProcessLine np line).count c = line.count c := by
  intro line
  unfold postProcessLine
  rw [count_replace2 '\\' '\\' c ['\\'] hc1 hc1 (by simp [hc1])]
  rw [count_joinSep c ['\\', '\\'] (by simp [hc1])]
  rw [List.map_map]
  have hmc : (split2 '\\' '\\' line).map
        (List.count c ∘ fun p => replace2 '\\' '"' np.doubleQuotes.data p) =
      (split2 '\\' '\\' line).map (List.count c) := by
    apply List.map_congr_left
    intro p _
    exact count_replace2 '\\' '"' c np.doubleQuotes.data hc1 hc2 hdq p
  rw [hmc]
  rw [← count_joinSep c ['\\', '\\'] (by simp [hc1])]
  rw [joinSep_split2 '\\' '\\' line]

theorem count_cells (np : NParams) (data : List JVal) (row : JVal) (c : Char) :
    ∀ fes : List FieldSpec,
      (∀ fe ∈ fes, (cellContent np data row fe).data.count c = 0) →
      ((fes.map (fun fe => (cellContent np data row fe).data ++ [c])).flatten).count c =
        fes.length := by
  intro fes
  induction fes with
  | nil =>
    intro _
    simp
  | cons fe rest ih =>
    intro h
    simp only [List.map_cons, List.flatten_cons, List.count_append, List.length_cons]
    rw [h fe (List.mem_cons_self fe rest),
      ih (fun x hx => h x (List.mem_cons_of_mem _ hx))]
    simp
    omega

theorem getLast_flatten_cells (np : NParams) (data : List JVal) (row : JVal) (c : Char) :
    ∀ fes : List FieldSpec, fes ≠ [] →
      ((fes.map (fun fe => (cellContent np data row fe).data ++ [c])).flatten).getLast? =
        some c := by
  intro fes
  induction fes with
  | nil =>
    intro h
    exact absurd rfl h
  | cons fe rest ih =>
    intro _
    cases rest with
    | nil =>
      simp only [List.map_cons, List.map_nil, List.flatten_cons, List.flatten_nil,
        List.append_nil]
      exact List.getLast?_concat _
    | cons fe2 rest2 =>
      simp only [List.map_cons, List.flatten_cons]
      rw [← List.flatten_cons, List.getLast?_append_of_ne_nil]
      · exact ih (by simp)
      · simp

theorem count_dropLast (l : List Char) (c : Char) (h : l.getLast? = some c) :
    l.dropLast.count c + 1 = l.count c := by
  have hne : l ≠ [] := by
    intro hc
    rw [hc] at h
    simp at h
  have hlast : l.getLast hne = c := by
    have := List.getLast?_eq_getLast l hne
    rw [this] at h
    injection h
  conv_rhs => rw [← List.dropLast_append_getLast hne]
  rw [List.count_append, hlast]
  simp

theorem strMk_data (l : List Char) : (String.mk l).data = l := rfl

theorem count_renderLine (np : NParams) (data : List JVal) (row : JVal) (c : Char)
    (hdel : np.del = String.mk [c]) (hfe : np.fields ≠ [])
    (hc1 : c ≠ '\\') (hc2 : c ≠ '"') (hdq : countChar c np.doubleQuotes = 0)
    (hcells : ∀ fe ∈ np.fields, countChar c (cellContent np data row fe) = 0) :
    countChar c (renderLine np data row) = np.fields.length - 1 := by
  unfold renderLine
  show ((postProcessLine np _).count c) = _
  rw [count_postProcessLine np c hc1 hc2 (List.count_eq_zero.mp hdq)]
  rw [hdel, strMk_data]
  have hcnt := count_cells np data row c np.fields hcells
  have hlast := getLast_flatten_cells np data row c np.fields hfe
  have hdrop := count_dropLast _ c hlast
  omega

theorem titlesAux_count (np : NParams) (c : Char) (hdel : np.del = String.mk [c]) :
    ∀ (names : List (Option String)) (acc t : String),
      acc ≠ "" →
      (∀ o ∈ names, ∃ s, o = some s ∧ headerCell np s ≠ "" ∧
        countChar c (headerCell np s) = 0) →
      titlesAux np names acc = Except.ok t →
      countChar c t = countChar c acc + names.length := by
  intro names
  induction names with
  | nil =>
    intro acc t hacc hnm h
    unfold titlesAux at h
    injection h with h
    rw [← h]
    simp
  | cons o rest ih =>
    intro acc t hacc hnm h
    obtain ⟨s, rfl, hne, hcnt⟩ := hnm o (List.mem_cons_self o rest)
    unfold titlesAux at h
    rw [if_pos hacc] at h
    have hacc2 : acc ++ np.del ++ headerCell np s ≠ "" :=
      strAppend_ne_empty_left _ _ (strAppend_ne_empty_left _ _ hacc)
    have := ih _ t hacc2 (fun o ho => hnm o (List.mem_cons_of_mem _ ho)) h
    rw [this, countChar_append, countChar_append, hcnt, hdel]
    have hone : countChar c (String.mk [c]) = 1 := by
      simp [countChar]
    rw [hone]
    simp only [List.length_cons]
    omega

theorem count_titles (np : NParams) (c : Char) (t : String)
    (hdel : np.del = String.mk [c])
    (hheader : np.hasCSVColumnTitle = true)
    (hne : np.fieldNames ≠ [])
    (hnames : ∀ o ∈ np.fieldNames, ∃ s, o = some s ∧ headerCell np s ≠ "" ∧
      countChar c (headerCell np s) = 0)
    (ht : createColumnTitles np = Except.ok t) :
    countChar c t = np.fieldNames.length - 1 := by
  unfold createColumnTitles at ht
  rw [hheader] at ht
  simp only [if_true] at ht
  cases hn : np.fieldNames with
  | nil => exact absurd hn hne
  | cons o rest =>
    rw [hn] at ht
    obtain ⟨s, rfl, hcne, hcnt⟩ := hnames o (by rw [hn]; exact List.mem_cons_self o rest)
    unfold titlesAux at ht
    rw [if_neg (by simp)] at ht
    rw [empty_append_str] at ht
    have := titlesAux_count np c hdel rest _ t hcne
      (fun o ho => hnames o (by rw [hn]; exact List.mem_cons_of_mem _ ho)) ht
    rw [this, hcnt]
    simp only [List.length_cons]
    omega

/-- Claim C1 counterexample, in two parts.  First, a cell whose value
contains the delimiter character adds further delimiter occurrences to
the emitted line: for the single field `a` and the row «a: "x,y"», the
data line of the full conversion is `"x,y"`, which contains one comma
although `fields.length - 1 = 0`.  Second, a header cell that renders
empty loses a separator: with `quotes` the empty string and fields
`['', 'b']`, the header's skip-delimiter-while-empty join emits the
header `b` with zero commas while the data line `,y` has one — this is
what forces the amended claim's proviso that every rendered header
cell be non-empty. -/
theorem claim1_counterexample :
    json2csv (JVal.arr [JVal.obj [("a", JVal.str "x,y")]])
      { fields := some [FieldSpec.strField "a"] } "\n" =
      Except.ok "\"a\"\n\"x,y\"" ∧
    renderLine defaultExampleParams [JVal.obj [("a", JVal.str "x,y")]]
      (JVal.obj [("a", JVal.str "x,y")]) = "\"x,y\"" ∧
    countChar ',' "\"x,y\"" = 1 ∧
    defaultExampleParams.fields.length - 1 = 0 ∧ (1 : Nat) ≠ 0 ∧
    json2csv (JVal.arr [JVal.obj [("b", JVal.str "y")]])
      { quotes := some "",
        fields := some [FieldSpec.strField "", FieldSpec.strField "b"] } "\n" =
      Except.ok "b\n,y" ∧
    countChar ',' "b" = 0 ∧
    countChar ',' ",y" = 1 :=
  ⟨rfl, rfl, rfl, rfl, by decide, rfl, rfl, rfl⟩

/-- Claim C1 (amended): every data line is built as exactly
`fields.length` rendered cells each followed by the delimiter, with one
trailing delimiter stripped, and the header as `fieldNames.length`
(= `fields.length`) name cells joined by the delimiter; hence whenever
the delimiter is a single character that occurs in no rendered cell and
no rendered header cell, differs from the backslash and double-quote
characters, does not occur in the `doubleQuotes` replacement, and every
rendered header cell is non-empty (an empty one makes the header join
skip a separator, see the counterexample), both the header line and
every data line contain exactly `fields.length - 1` occurrences of the
delimiter character — in particular their column counts agree. -/
theorem claim1 (np : NParams) (data : List JVal) (row : JVal) (c : Char) (t : String)
    (hdel : np.del = String.mk [c])
    (hfe : np.fields ≠ [])
    (hc1 : c ≠ '\\') (hc2 : c ≠ '"')
    (hdq : countChar c np.doubleQuotes = 0)
    (hcells : ∀ fe ∈ np.fields, countChar c (cellContent np data row fe) = 0)
    (hlen : np.fieldNames.length = np.fields.length)
    (hnames : ∀ o ∈ np.fieldNames, ∃ s, o = some s ∧ headerCell np s ≠ "" ∧
      countChar c (headerCell np s) = 0)
    (hheader : np.hasCSVColumnTitle = true)
    (ht : createColumnTitles np = Except.ok t) :
    countChar c (renderLine np data row) = np.fields.length - 1 ∧
    countChar c t = np.fields.length - 1 := by
  constructor
  · exact count_renderLine np data row c hdel hfe hc1 hc2 hdq hcells
  · have hne : np.fieldNames ≠ [] := by
      intro hc
      rw [hc] at hlen
      exact hfe (List.length_eq_zero.mp hlen.symm)
    rw [count_titles np c t hdel hheader hne hnames ht, hlen]

/-- Witness for C1 with two fields, string cells and the comma
delimiter. -/
theorem claim1_witness :
    countChar ','
      (renderLine (buildParams {} [FieldSpec.strField "a", FieldSpec.strField "b"])
        [] (JVal.obj [("a", JVal.str "x"), ("b", JVal.str "y")])) = 1 ∧
    countChar ',' "\"a\",\"b\"" = 1 :=
  claim1 (buildParams {} [FieldSpec.strField "a", FieldSpec.strField "b"])
    [] (JVal.obj [("a", JVal.str "x"), ("b", JVal.str "y")]) ','
    "\"a\",\"b\"" rfl (List.cons_ne_nil _ _) (by decide) (by decide) rfl
    (by
      intro fe hfe
      have h2 : fe ∈ [FieldSpec.strField "a", FieldSpec.strField "b"] := hfe
      rcases List.mem_cons.mp h2 with rfl | h2
      · rfl
      rcases List.mem_cons.mp h2 with rfl | h2
      · rfl
      cases h2)
    rfl
    (by
      intro o ho
      have h2 : o ∈ [some "a", some "b"] := ho
      rcases List.mem_cons.mp h2 with rfl | h2
      · exact ⟨"a", rfl, by decide, rfl⟩
      rcases List.mem_cons.mp h2 with rfl | h2
      · exact ⟨"b", rfl, by decide, rfl⟩
      cases h2)
    rfl rfl

end Json2Csv
